import Mathlib

/-! # Residue counting in FASTA streams

A shallow embedding of the five `GetFastaSize` programs of the repository
(`scripts/GetFastaSize.c` and `scripts/cstuff/GetFastaSize*.c`), and proofs
about what they count.

Conventions of the embedding.

* An input (standard input, or the mapped file) is a `List Nat`: the bytes in
  order, each the value `0 .. 255` that `fread` stores or `getchar` returns.
  The comparisons `c == '>'` and `c == '\n'` on a `char` holding such a byte
  are true exactly for the byte values `62` and `10`, whatever the signedness
  of `char`, because both constants are below `128`.
* `size_t` and `unsigned long` are 64 bits wide: the counter is a `Nat` that
  is reduced modulo `2 ^ 64` at every write.
* `fread (s, 1, SZ, stdin)` on a stream delivers the next `SZ` bytes, or all
  remaining bytes when fewer are left, and `0` bytes at the end of the input.
* `GetFastaSize_ultrafast.c` is given the bytes of the file it opens; `mmap`
  refuses a mapping of length zero, so an empty file yields no count.
* Loops whose trip count is not a structural bound (`while` loops around
  `fread` and `getchar`) take a fuel argument and return `none` when it runs
  out; a loop that diverges returns `none` for every amount of fuel.
-/

/-- Byte value of the character constant `'>'`. -/
def GT : Nat := 62

/-- Byte value of the character constant `'\n'`. -/
def NL : Nat := 10

/-- Number of values of a 64-bit `size_t` / `unsigned long`. -/
def SIZE_MOD : Nat := 2 ^ 64

/-- The two variables every scan carries from byte to byte: the running count
and the header flag (`in_header` in `GetFastaSize_fast.c` and
`GetFastaSize_ultrafast.c`, `readId` in `GetFastaSize_fastA.c`). -/
structure Scan where
  count : Nat
  in_header : Bool
deriving DecidableEq, Repr

/-- Model of `fread (s, 1, sz, stdin)`: the bytes stored in the buffer (their
number is the return value) and the stream that is left. -/
def fread (sz : Nat) (stdin : List Nat) : List Nat × List Nat :=
  (stdin.take sz, stdin.drop sz)

namespace GetFastaSize_fast

/-- Buffer size: `#define SZ (1 << 14)`. -/
def SZ : Nat := 1 <<< 14

/-- Start of the scan: `size_t count = 0; bool in_header = false;`. -/
def init : Scan := { count := 0, in_header := false }

/-- Body of the `for` loop (lines 15-25) for the byte `c = s[i]`. -/
def step (st : Scan) (c : Nat) : Scan :=
  if c = GT then
    { st with in_header := true }
  else if c = NL then
    { st with in_header := false }
  else if !st.in_header then
    { st with count := (st.count + 1) % SIZE_MOD }
  else
    st

/-- The loop `for (size_t i = 0; i < n; ++i)` over the `n` bytes of the buffer. -/
def forLoop (st : Scan) (buf : List Nat) : Scan :=
  buf.foldl step st

/-- The loop `while ((n = fread(s, 1, SZ, stdin)) > 0)` with buffer size `sz`. -/
def whileLoop (sz : Nat) : Nat → List Nat → Scan → Option Scan
  | 0, _, _ => none
  | fuel + 1, stdin, st =>
    let (buf, rest) := fread sz stdin
    if buf.length > 0 then
      whileLoop sz fuel rest (forLoop st buf)
    else
      some st

/-- The scan of `main` with the buffer size as a parameter: the value of
`count` that reaches `printf`. -/
def scanWith (sz fuel : Nat) (stdin : List Nat) : Option Nat :=
  (whileLoop sz fuel stdin init).map Scan.count

/-- The scan of `main` as compiled, with `SZ = 16384`. -/
def scan (fuel : Nat) (stdin : List Nat) : Option Nat :=
  scanWith SZ fuel stdin

end GetFastaSize_fast

namespace GetFastaSize_ultrafast

/-- Start of the scan: `size_t count = 0; bool in_header = false;`. -/
def init : Scan := { count := 0, in_header := false }

/-- Body of the `for` loop (lines 40-47) for the byte `c = data[i]`. -/
def step (st : Scan) (c : Nat) : Scan :=
  if c = GT then
    { st with in_header := true }
  else if c = NL then
    { st with in_header := false }
  else if !st.in_header then
    { st with count := (st.count + 1) % SIZE_MOD }
  else
    st

/-- The loop `for (size_t i = 0; i < size; ++i)` (lines 39-48) over the mapped
bytes `data`. -/
def forLoop (st : Scan) (data : List Nat) : Scan :=
  data.foldl step st

/-- Model of `mmap (NULL, size, PROT_READ, MAP_PRIVATE, fd, 0)` on a regular
file that holds the bytes `file`: a mapping of length zero is refused
(`MAP_FAILED` with `EINVAL`, here `none`), otherwise the first `size` bytes of
the file are mapped. -/
def mmap (size : Nat) (file : List Nat) : Option (List Nat) :=
  if size = 0 then none else some (file.take size)

/-- Lines 28-48 of `main`, for a file on which `open` and `fstat` succeeded:
`size = st.st_size` is the length of the file, the file is mapped, and when
`data == MAP_FAILED` `main` returns 1 with no count (`none`); otherwise the
loop runs over the mapped bytes and its `count` reaches `printf`. -/
def scan (file : List Nat) : Option Nat :=
  let size := file.length
  match mmap size file with
  | none => none
  | some data => some (forLoop init data).count

end GetFastaSize_ultrafast

namespace GetFastaSize_fastA

/-- Buffer size: `#define SZ 1ull << 14`. -/
def SZ : Nat := 1 <<< 14

/-- Start of the scan: `size_t count = 0; bool readId = false;`. -/
def init : Scan := { count := 0, in_header := false }

/-- Body of both `for` loops (lines 15-18 and 24-27) for the byte `c = s[i]`:
`readId |= (c == '>'); isNewline = (c == '\n');
count += (!readId && !isNewline); readId &= !isNewline;`. -/
def step (st : Scan) (c : Nat) : Scan :=
  let readId : Bool := st.in_header || decide (c = GT)
  let isNewline : Bool := decide (c = NL)
  let count : Nat := (st.count + (if !readId && !isNewline then 1 else 0)) % SIZE_MOD
  { count := count, in_header := readId && !isNewline }

/-- One `for` loop over the bytes of the buffer that were read. -/
def forLoop (st : Scan) (buf : List Nat) : Scan :=
  buf.foldl step st

/-- The loop `while ((N = fread(&s, 1, SZ, stdin)) == SZ)` followed by the
tail loop `for (i = 0; i < N; i++)` over the last, shorter read. -/
def whileLoop (sz : Nat) : Nat → List Nat → Scan → Option Scan
  | 0, _, _ => none
  | fuel + 1, stdin, st =>
    let (buf, rest) := fread sz stdin
    if buf.length = sz then
      whileLoop sz fuel rest (forLoop st buf)
    else
      some (forLoop st buf)

/-- The scan of `main` with the buffer size as a parameter. -/
def scanWith (sz fuel : Nat) (stdin : List Nat) : Option Nat :=
  (whileLoop sz fuel stdin init).map Scan.count

/-- The scan of `main` as compiled, with `SZ = 16384`. -/
def scan (fuel : Nat) (stdin : List Nat) : Option Nat :=
  scanWith SZ fuel stdin

end GetFastaSize_fastA

/-- The value `EOF` of `<stdio.h>`. -/
def EOF : Int := -1

/-- Model of `getchar ()`: the next byte as an `int`, or `EOF` at the end of
the input, where it stays. -/
def getchar (stdin : List Nat) : Int × List Nat :=
  match stdin with
  | [] => (EOF, [])
  | b :: rest => ((b : Int), rest)

/-- Conversion of an `int` to an 8-bit `char`, as in `char current = getchar ()`.
With a signed `char` the result lies in `-128 .. 127`, with an unsigned one in
`0 .. 255`. -/
def toChar (signedChar : Bool) (v : Int) : Int :=
  if signedChar then (v + 128) % 256 - 128 else v % 256

namespace Cstuff_GetFastaSize

/-- The inner loop `while ((current = getchar()) != '\n') ;` (line 13): it
returns the last value of `current` and the input that is left. -/
def skipLoop (signedChar : Bool) : Nat → List Nat → Option (Int × List Nat)
  | 0, _ => none
  | fuel + 1, stdin =>
    let (r, rest) := getchar stdin
    let current := toChar signedChar r
    if current ≠ (NL : Int) then
      skipLoop signedChar fuel rest
    else
      some (current, rest)

/-- The loop `while ((current = getchar()) != EOF)` of
`scripts/cstuff/GetFastaSize.c` (lines 10-19), `count` being an
`unsigned long`. -/
def whileLoop (signedChar : Bool) : Nat → List Nat → Nat → Option Nat
  | 0, _, _ => none
  | fuel + 1, stdin, count =>
    let (r, rest) := getchar stdin
    let current := toChar signedChar r
    if current ≠ EOF then
      let skipped :=
        if current = (GT : Int) then skipLoop signedChar fuel rest else some (current, rest)
      match skipped with
      | none => none
      | some (current, rest) =>
        whileLoop signedChar fuel rest
          (if current ≠ (NL : Int) then (count + 1) % SIZE_MOD else count)
    else
      some count

/-- The scan of `main`: `count = 0;` and the loop. -/
def scan (signedChar : Bool) (fuel : Nat) (stdin : List Nat) : Option Nat :=
  whileLoop signedChar fuel stdin 0

end Cstuff_GetFastaSize

namespace Scripts_GetFastaSize

/-- `#define IN 1`. -/
def IN : Int := 1

/-- `#define OUT 0`. -/
def OUT : Int := 0

/-- Body of the loop of `scripts/GetFastaSize.c` (lines 15-24) for the byte
`current`; the state is `(count, head)`. -/
def step (st : Nat × Int) (current : Nat) : Nat × Int :=
  let (count, head) := st
  if current = GT then (count, IN)
  else if head = IN ∧ current ≠ NL then (count, head)
  else if head = IN ∧ current = NL then (count, OUT)
  else if head = OUT ∧ current ≠ NL then ((count + 1) % SIZE_MOD, head)
  else if head = OUT ∧ current = NL then (count, head)
  else (count, head)

/-- The scan of `main`: `count = 0;`, `head` holding the indeterminate value
`v`, and the loop `while ((current = getchar()) != EOF)`; `current` is an
`int`, so the loop ends exactly at the end of the input. -/
def scan (v : Int) (stdin : List Nat) : Nat :=
  (stdin.foldl step (0, v)).1

end Scripts_GetFastaSize

/-! ## Printing the count -/

/-- Decimal digits of an unsigned value, most significant first, as `printf`
produces them before padding: no digit at all for the value zero. -/
def udigits : Nat → Nat → List Char
  | 0, _ => []
  | fuel + 1, v =>
    if v = 0 then [] else udigits fuel (v / 10) ++ [Char.ofNat (48 + v % 10)]

/-- The conversion `%.<precision>lu` of the C library: the digits of the
value, padded on the left with zeros up to `precision` digits. A zero value
with precision zero gives no characters. -/
def conv_lu (precision : Nat) (v : Nat) : List Char :=
  let ds := udigits v v
  List.replicate (precision - ds.length) '0' ++ ds

/-- Output of `printf ("%lu\n", count)`: the default precision is 1. -/
def printf_lu (count : Nat) : List Char :=
  conv_lu 1 (count % SIZE_MOD) ++ [Char.ofNat 10]

/-- Output of `printf ("%.0lu\n", count)`: precision 0. -/
def printf_p0_lu (count : Nat) : List Char :=
  conv_lu 0 (count % SIZE_MOD) ++ [Char.ofNat 10]

/-- What `main` of `GetFastaSize_fast.c` writes to standard output. -/
def GetFastaSize_fast.main (fuel : Nat) (stdin : List Nat) : Option (List Char) :=
  (GetFastaSize_fast.scan fuel stdin).map printf_lu

/-- Exit status and standard output of `main` of `GetFastaSize_ultrafast.c`.
`argc` is the argument count, `opened` holds the bytes of the file `argv[1]`
when `open` succeeds and is `none` when it returns `-1`, `fstatOk` tells
whether `fstat` succeeds. Every failure (wrong `argc`, `open`, `fstat`,
`mmap`) returns 1 and writes nothing to standard output, its message going to
standard error. -/
def GetFastaSize_ultrafast.main (argc : Nat) (opened : Option (List Nat)) (fstatOk : Bool) :
    Nat × List Char :=
  if argc ≠ 2 then (1, [])
  else
    match opened with
    | none => (1, [])
    | some file =>
      if !fstatOk then (1, [])
      else
        match GetFastaSize_ultrafast.scan file with
        | none => (1, [])
        | some count => (0, printf_lu count)

/-- What `main` of `GetFastaSize_fastA.c` writes to standard output. -/
def GetFastaSize_fastA.main (fuel : Nat) (stdin : List Nat) : Option (List Char) :=
  (GetFastaSize_fastA.scan fuel stdin).map printf_p0_lu

/-- What `main` of `scripts/cstuff/GetFastaSize.c` writes to standard output. -/
def Cstuff_GetFastaSize.main (signedChar : Bool) (fuel : Nat) (stdin : List Nat) :
    Option (List Char) :=
  (Cstuff_GetFastaSize.scan signedChar fuel stdin).map printf_p0_lu

/-- What `main` of `scripts/GetFastaSize.c` writes to standard output. -/
def Scripts_GetFastaSize.main (v : Int) (stdin : List Nat) : List Char :=
  printf_p0_lu (Scripts_GetFastaSize.scan v stdin)

/-! ## Specification-side definitions -/

/-- The byte at position `j` of `x` is `'>'` or `'\n'`. -/
def isMark (x : List Nat) (j : Nat) : Prop :=
  x[j]? = some GT ∨ x[j]? = some NL

instance (x : List Nat) (j : Nat) : Decidable (isMark x j) := by
  unfold isMark; infer_instance

/-- Position `i` of `x` is not inside an active header run: the nearest
earlier position holding `'>'` or `'\n'`, if there is one, holds `'\n'`. -/
def outsideHeader (x : List Nat) (i : Nat) : Prop :=
  ∀ j, j < i → isMark x j → (∀ k, k < i → j < k → ¬ isMark x k) → x[j]? = some NL

instance (x : List Nat) (i : Nat) : Decidable (outsideHeader x i) := by
  unfold outsideHeader; infer_instance

/-- Position `i` of `x` holds a residue: its byte is neither `'>'` nor `'\n'`
and it is not inside an active header run. -/
def isResidue (x : List Nat) (i : Nat) : Prop :=
  x[i]? ≠ some GT ∧ x[i]? ≠ some NL ∧ outsideHeader x i

instance (x : List Nat) (i : Nat) : Decidable (isResidue x i) := by
  unfold isResidue; infer_instance

/-- The positions of `x` that hold a residue. -/
def residuePositions (x : List Nat) : List Nat :=
  (List.range x.length).filter (fun i => decide (isResidue x i))

/-- One FASTA record `'>' ++ h ++ '\n' ++ l_1 ++ '\n' ++ ... ++ l_k ++ '\n'`,
given as the header text `h` and the sequence lines `l_1 .. l_k`. -/
def renderRecord (r : List Nat × List (List Nat)) : List Nat :=
  GT :: r.1 ++ NL :: (r.2.map (fun l => l ++ [NL])).flatten

/-- The concatenation of the records. -/
def renderFasta (recs : List (List Nat × List (List Nat))) : List Nat :=
  (recs.map renderRecord).flatten

/-- Well-formed records: no header text contains `'\n'`, no sequence line
contains `'>'` or `'\n'`. -/
def WellFormed (recs : List (List Nat × List (List Nat))) : Prop :=
  ∀ r ∈ recs, (∀ c ∈ r.1, c ≠ NL) ∧ ∀ l ∈ r.2, ∀ c ∈ l, c ≠ GT ∧ c ≠ NL

instance (recs : List (List Nat × List (List Nat))) : Decidable (WellFormed recs) := by
  unfold WellFormed; infer_instance

/-- Sum of the lengths of all sequence lines of all records. -/
def totalResidues (recs : List (List Nat × List (List Nat))) : Nat :=
  (recs.map (fun r => (r.2.map List.length).sum)).sum

/-- The count a scan holds after the bytes `x` when it is in header state `h`
before them and the counter is unbounded: the arithmetic behind the 64-bit
counter. -/
def residues : Bool → List Nat → Nat
  | _, [] => 0
  | h, c :: x =>
    if c = GT then residues true x
    else if c = NL then residues false x
    else (if h then 0 else 1) + residues h x

/-- The header flag after the bytes `x` when it is `h` before them. -/
def headerAfter : Bool → List Nat → Bool
  | h, [] => h
  | h, c :: x =>
    if c = GT then headerAfter true x
    else if c = NL then headerAfter false x
    else headerAfter h x

/-- The header state after the byte `c` when it is `s` before it, in the words
of the specification: IN_HEADER (`true`) if `c` is `'>'`, IN_SEQUENCE
(`false`) if `c` is `'\n'`, otherwise `s`. -/
def transition (s : Bool) (c : Nat) : Bool :=
  if c = GT then true else if c = NL then false else s

/-! ## The arithmetic of one pass -/

theorem NL_ne_GT : NL ≠ GT := by decide

theorem residues_le_length (h : Bool) (x : List Nat) : residues h x ≤ x.length := by
  induction x generalizing h with
  | nil => simp [residues]
  | cons c x ih =>
    simp only [residues, List.length_cons]
    split
    · exact Nat.le_succ_of_le (ih true)
    · split
      · exact Nat.le_succ_of_le (ih false)
      · have := ih h
        cases h <;> simp <;> omega

theorem residues_append (h : Bool) (x y : List Nat) :
    residues h (x ++ y) = residues h x + residues (headerAfter h x) y := by
  induction x generalizing h with
  | nil => simp [residues, headerAfter]
  | cons c x ih =>
    have e : (c :: x) ++ y = c :: (x ++ y) := rfl
    rw [e]
    simp only [residues, headerAfter]
    split
    · exact ih true
    · split
      · exact ih false
      · rw [ih h, Nat.add_assoc]

theorem headerAfter_append (h : Bool) (x y : List Nat) :
    headerAfter h (x ++ y) = headerAfter (headerAfter h x) y := by
  induction x generalizing h with
  | nil => simp [headerAfter]
  | cons c x ih =>
    have e : (c :: x) ++ y = c :: (x ++ y) := rfl
    rw [e]
    simp only [headerAfter]
    split
    · exact ih true
    · split
      · exact ih false
      · exact ih h

/-- One pass of the branching loop, as long as the 64-bit counter cannot wrap. -/
theorem fast_forLoop_eq (x : List Nat) (st : Scan) (hlen : st.count + x.length < SIZE_MOD) :
    GetFastaSize_fast.forLoop st x =
      { count := st.count + residues st.in_header x,
        in_header := headerAfter st.in_header x } := by
  induction x generalizing st with
  | nil => simp [GetFastaSize_fast.forLoop, residues, headerAfter]
  | cons c x ih =>
    have hstep : GetFastaSize_fast.forLoop st (c :: x) =
        GetFastaSize_fast.forLoop (GetFastaSize_fast.step st c) x := rfl
    rw [hstep]
    simp only [List.length_cons] at hlen
    by_cases h1 : c = GT
    · have hs : GetFastaSize_fast.step st c = { st with in_header := true } := by
        simp [GetFastaSize_fast.step, h1]
      rw [hs, ih _ (by simp; omega)]
      simp [residues, headerAfter, h1]
    · by_cases h2 : c = NL
      · have hs : GetFastaSize_fast.step st c = { st with in_header := false } := by
          simp [GetFastaSize_fast.step, h2, NL_ne_GT]
        rw [hs, ih _ (by simp; omega)]
        simp [residues, headerAfter, h2, NL_ne_GT]
      · cases hh : st.in_header
        · have hs : GetFastaSize_fast.step st c = { st with count := st.count + 1 } := by
            have : (st.count + 1) % SIZE_MOD = st.count + 1 := Nat.mod_eq_of_lt (by omega)
            simp [GetFastaSize_fast.step, h1, h2, hh, this]
          rw [hs, ih _ (by simp; omega)]
          simp [residues, headerAfter, h1, h2, hh]
          omega
        · have hs : GetFastaSize_fast.step st c = st := by
            simp [GetFastaSize_fast.step, h1, h2, hh]
          rw [hs, ih _ (by omega)]
          simp [residues, headerAfter, h1, h2, hh]

/-- The header flag after one pass, whatever the counter does. -/
theorem fast_forLoop_header (x : List Nat) (st : Scan) :
    (GetFastaSize_fast.forLoop st x).in_header = headerAfter st.in_header x := by
  induction x generalizing st with
  | nil => simp [GetFastaSize_fast.forLoop, headerAfter]
  | cons c x ih =>
    have hstep : GetFastaSize_fast.forLoop st (c :: x) =
        GetFastaSize_fast.forLoop (GetFastaSize_fast.step st c) x := rfl
    rw [hstep, ih]
    simp only [GetFastaSize_fast.step, headerAfter]
    split
    · rfl
    · split
      · rfl
      · split <;> rfl

theorem fast_forLoop_append (st : Scan) (x y : List Nat) :
    GetFastaSize_fast.forLoop st (x ++ y) =
      GetFastaSize_fast.forLoop (GetFastaSize_fast.forLoop st x) y := by
  simp [GetFastaSize_fast.forLoop, List.foldl_append]

/-- The chunked loop of `GetFastaSize_fast.c` ends, and its state is that of
one pass over the whole input. -/
theorem fast_whileLoop_eq (sz : Nat) (hsz : 1 ≤ sz) (fuel : Nat) (x : List Nat) (st : Scan)
    (hfuel : x.length < fuel) :
    GetFastaSize_fast.whileLoop sz fuel x st = some (GetFastaSize_fast.forLoop st x) := by
  induction fuel generalizing x st with
  | zero => omega
  | succ fuel ih =>
    simp only [GetFastaSize_fast.whileLoop, fread]
    by_cases hx : x = []
    · subst hx
      simp [GetFastaSize_fast.forLoop]
    · have hpos : 0 < x.length := List.length_pos.mpr hx
      have htake : (List.take sz x).length > 0 := by
        rw [List.length_take]; omega
      rw [if_pos htake, ih]
      · rw [← fast_forLoop_append, List.take_append_drop]
      · rw [List.length_drop]; omega
/-! ## Residues by position -/

theorem isMark_congr (x y : List Nat) (j : Nat) (h : x[j]? = y[j]?) :
    isMark x j ↔ isMark y j := by
  unfold isMark; rw [h]

theorem outsideHeader_congr (x y : List Nat) (i : Nat) (h : ∀ j, j < i → x[j]? = y[j]?) :
    outsideHeader x i ↔ outsideHeader y i := by
  unfold outsideHeader
  constructor
  · intro H j hj hm hno
    rw [← h j hj]
    exact H j hj ((isMark_congr x y j (h j hj)).mpr hm)
      (fun k hk hjk hmk => hno k hk hjk ((isMark_congr x y k (h k hk)).mp hmk))
  · intro H j hj hm hno
    rw [h j hj]
    exact H j hj ((isMark_congr x y j (h j hj)).mp hm)
      (fun k hk hjk hmk => hno k hk hjk ((isMark_congr x y k (h k hk)).mpr hmk))

theorem getElem?_snoc_lt (x : List Nat) (c j : Nat) (hj : j < x.length) :
    (x ++ [c])[j]? = x[j]? := by
  rw [List.getElem?_append_left hj]

theorem getElem?_snoc_length (x : List Nat) (c : Nat) :
    (x ++ [c])[x.length]? = some c := by
  simp

theorem isMark_snoc_length (x : List Nat) (c : Nat) :
    isMark (x ++ [c]) x.length ↔ (c = GT ∨ c = NL) := by
  unfold isMark
  rw [getElem?_snoc_length]
  simp

theorem headerAfter_snoc (h : Bool) (x : List Nat) (c : Nat) :
    headerAfter h (x ++ [c]) =
      if c = GT then true else if c = NL then false else headerAfter h x := by
  rw [headerAfter_append]
  simp only [headerAfter]

theorem residues_snoc (h : Bool) (x : List Nat) (c : Nat) :
    residues h (x ++ [c]) =
      residues h x + (if c = GT then 0 else if c = NL then 0
        else if headerAfter h x then 0 else 1) := by
  rw [residues_append]
  simp only [residues]
  split
  · rfl
  · split
    · rfl
    · simp

/-- The header flag is down after `x` exactly when the end of `x` is outside
every header run. -/
theorem headerAfter_false_iff (x : List Nat) :
    headerAfter false x = false ↔ outsideHeader x x.length := by
  induction x using List.reverseRecOn with
  | nil =>
    simp only [headerAfter, List.length_nil, true_iff]
    intro j hj
    omega
  | append_singleton x c ih =>
    rw [headerAfter_snoc, List.length_append, List.length_singleton]
    by_cases h1 : c = GT
    · simp only [h1, if_true, Bool.true_eq_false, false_iff]
      intro H
      have hm : isMark (x ++ [GT]) x.length := (isMark_snoc_length x GT).mpr (Or.inl rfl)
      have := H x.length (Nat.lt_succ_self _) hm (fun k hk hjk => by omega)
      rw [getElem?_snoc_length] at this
      exact NL_ne_GT (Option.some.inj this).symm
    · by_cases h2 : c = NL
      · subst h2
        simp only [NL_ne_GT, ↓reduceIte, true_iff]
        unfold outsideHeader
        intro j hj hm hno
        by_cases hjl : j = x.length
        · subst hjl
          exact getElem?_snoc_length x NL
        · have hlt : j < x.length := by omega
          exact absurd ((isMark_snoc_length x NL).mpr (Or.inr rfl))
            (hno x.length (Nat.lt_succ_self _) hlt)
      · simp only [h1, h2, if_false]
        rw [ih]
        have hnm : ¬ isMark (x ++ [c]) x.length := by
          rw [isMark_snoc_length]
          exact fun h => h.elim h1 h2
        unfold outsideHeader
        constructor
        · intro H j hj hm hno
          by_cases hjl : j = x.length
          · subst hjl
            exact absurd hm hnm
          · have hlt : j < x.length := by omega
            rw [getElem?_snoc_lt x c j hlt]
            refine H j hlt ((isMark_congr _ _ j (getElem?_snoc_lt x c j hlt)).mp hm) ?_
            intro k hk hjk hmk
            exact hno k (Nat.lt_succ_of_lt hk) hjk
              ((isMark_congr _ _ k (getElem?_snoc_lt x c k hk)).mpr hmk)
        · intro H j hj hm hno
          rw [← getElem?_snoc_lt x c j hj]
          refine H j (Nat.lt_succ_of_lt hj)
            ((isMark_congr _ _ j (getElem?_snoc_lt x c j hj)).mpr hm) ?_
          intro k hk hjk hmk
          by_cases hkl : k = x.length
          · subst hkl
            exact hnm hmk
          · have hlt : k < x.length := by omega
            exact hno k hlt hjk ((isMark_congr _ _ k (getElem?_snoc_lt x c k hlt)).mp hmk)

theorem isResidue_snoc_lt (x : List Nat) (c i : Nat) (hi : i < x.length) :
    isResidue (x ++ [c]) i ↔ isResidue x i := by
  unfold isResidue
  rw [getElem?_snoc_lt x c i hi,
    outsideHeader_congr (x ++ [c]) x i
      (fun j hj => getElem?_snoc_lt x c j (Nat.lt_trans hj hi))]

theorem isResidue_snoc_length (x : List Nat) (c : Nat) :
    isResidue (x ++ [c]) x.length ↔ (c ≠ GT ∧ c ≠ NL ∧ headerAfter false x = false) := by
  unfold isResidue
  rw [getElem?_snoc_length, headerAfter_false_iff,
    outsideHeader_congr (x ++ [c]) x x.length (fun j hj => getElem?_snoc_lt x c j hj)]
  simp

theorem residuePositions_snoc (x : List Nat) (c : Nat) :
    residuePositions (x ++ [c]) =
      residuePositions x ++
        (if c ≠ GT ∧ c ≠ NL ∧ headerAfter false x = false then [x.length] else []) := by
  unfold residuePositions
  rw [List.length_append, List.length_singleton, List.range_succ, List.filter_append]
  congr 1
  · apply List.filter_congr
    intro i hi
    have hi : i < x.length := List.mem_range.mp hi
    simp only [decide_eq_decide]
    exact isResidue_snoc_lt x c i hi
  · by_cases h : c ≠ GT ∧ c ≠ NL ∧ headerAfter false x = false
    · rw [if_pos h]
      simp [List.filter, (isResidue_snoc_length x c).mpr h]
    · rw [if_neg h]
      have : ¬ isResidue (x ++ [c]) x.length := fun hr => h ((isResidue_snoc_length x c).mp hr)
      simp [List.filter, this]

/-- The unbounded count of one pass is the number of residue positions. -/
theorem residues_eq_positions (x : List Nat) :
    residues false x = (residuePositions x).length := by
  induction x using List.reverseRecOn with
  | nil => simp [residues, residuePositions]
  | append_singleton x c ih =>
    rw [residues_snoc, residuePositions_snoc, List.length_append, ih]
    congr 1
    by_cases h1 : c = GT
    · simp [h1]
    · by_cases h2 : c = NL
      · simp [h2]
      · cases hh : headerAfter false x <;> simp [h1, h2]
/-! ## The branchless loop and the mapped loop -/

theorem fast_step_count_lt (st : Scan) (c : Nat) (h : st.count < SIZE_MOD) :
    (GetFastaSize_fast.step st c).count < SIZE_MOD := by
  unfold GetFastaSize_fast.step
  split
  · exact h
  · split
    · exact h
    · split
      · exact Nat.mod_lt _ (by decide)
      · exact h

theorem fast_forLoop_count_lt (x : List Nat) (st : Scan) (h : st.count < SIZE_MOD) :
    (GetFastaSize_fast.forLoop st x).count < SIZE_MOD := by
  induction x generalizing st with
  | nil => exact h
  | cons c x ih => exact ih _ (fast_step_count_lt st c h)

/-- On a counter that is a 64-bit value, the branchless update and the
if/else chain compute the same next state. -/
theorem fastA_step_eq (st : Scan) (c : Nat) (h : st.count < SIZE_MOD) :
    GetFastaSize_fastA.step st c = GetFastaSize_fast.step st c := by
  have hmod : st.count % SIZE_MOD = st.count := Nat.mod_eq_of_lt h
  obtain ⟨n, b⟩ := st
  simp only at hmod
  by_cases h1 : c = GT
  · subst h1
    simp [GetFastaSize_fastA.step, GetFastaSize_fast.step, hmod, Ne.symm NL_ne_GT]
  · by_cases h2 : c = NL
    · subst h2
      simp [GetFastaSize_fastA.step, GetFastaSize_fast.step, hmod, NL_ne_GT]
    · cases b <;> simp [GetFastaSize_fastA.step, GetFastaSize_fast.step, hmod, h1, h2]

theorem fastA_forLoop_eq (x : List Nat) (st : Scan) (h : st.count < SIZE_MOD) :
    GetFastaSize_fastA.forLoop st x = GetFastaSize_fast.forLoop st x := by
  induction x generalizing st with
  | nil => rfl
  | cons c x ih =>
    have e1 : GetFastaSize_fastA.forLoop st (c :: x) =
        GetFastaSize_fastA.forLoop (GetFastaSize_fastA.step st c) x := rfl
    have e2 : GetFastaSize_fast.forLoop st (c :: x) =
        GetFastaSize_fast.forLoop (GetFastaSize_fast.step st c) x := rfl
    rw [e1, e2, fastA_step_eq st c h]
    exact ih _ (fast_step_count_lt st c h)

theorem fastA_forLoop_append (st : Scan) (x y : List Nat) :
    GetFastaSize_fastA.forLoop st (x ++ y) =
      GetFastaSize_fastA.forLoop (GetFastaSize_fastA.forLoop st x) y := by
  simp [GetFastaSize_fastA.forLoop, List.foldl_append]

/-- The two loops of `GetFastaSize_fastA.c` end, and their state is that of
one branchless pass over the whole input. -/
theorem fastA_whileLoop_eq (sz : Nat) (hsz : 1 ≤ sz) (fuel : Nat) (x : List Nat) (st : Scan)
    (hfuel : x.length < fuel) :
    GetFastaSize_fastA.whileLoop sz fuel x st = some (GetFastaSize_fastA.forLoop st x) := by
  induction fuel generalizing x st with
  | zero => omega
  | succ fuel ih =>
    simp only [GetFastaSize_fastA.whileLoop, fread]
    by_cases hfull : (List.take sz x).length = sz
    · rw [if_pos hfull, ih]
      · rw [← fastA_forLoop_append, List.take_append_drop]
      · rw [List.length_take] at hfull
        rw [List.length_drop]
        omega
    · rw [if_neg hfull]
      rw [List.length_take] at hfull
      rw [List.take_of_length_le (by omega)]

theorem ultrafast_step_eq : GetFastaSize_ultrafast.step = GetFastaSize_fast.step := rfl

theorem ultrafast_forLoop_eq (x : List Nat) :
    GetFastaSize_ultrafast.forLoop GetFastaSize_ultrafast.init x =
      GetFastaSize_fast.forLoop GetFastaSize_fast.init x :=
  rfl

/-- On a zero-length file the mapping fails and no count is produced. -/
theorem ultrafast_scan_nil : GetFastaSize_ultrafast.scan [] = none := rfl

/-- On a file that is not empty the mapped scan returns the count of one pass
of the if/else chain over all its bytes. -/
theorem ultrafast_scan_eq (x : List Nat) (hne : x ≠ []) :
    GetFastaSize_ultrafast.scan x =
      some (GetFastaSize_fast.forLoop GetFastaSize_fast.init x).count := by
  have hpos : x.length ≠ 0 := fun h => hne (List.length_eq_zero.mp h)
  simp only [GetFastaSize_ultrafast.scan, GetFastaSize_ultrafast.mmap, hpos, if_false,
    List.take_length, ultrafast_forLoop_eq]

/-- The streamed scan returns the count of one pass over the whole input. -/
theorem fast_scanWith_eq_forLoop (sz : Nat) (hsz : 1 ≤ sz) (fuel : Nat) (x : List Nat)
    (hfuel : x.length < fuel) :
    GetFastaSize_fast.scanWith sz fuel x =
      some (GetFastaSize_fast.forLoop GetFastaSize_fast.init x).count := by
  unfold GetFastaSize_fast.scanWith
  rw [fast_whileLoop_eq sz hsz fuel x _ hfuel]
  rfl

/-- The streamed scan returns the unbounded count when the input is shorter
than `2 ^ 64` bytes. -/
theorem fast_scan_eq_residues (fuel : Nat) (x : List Nat)
    (hfuel : x.length < fuel) (hlen : x.length < 2 ^ 64) :
    GetFastaSize_fast.scan fuel x = some (residues false x) := by
  unfold GetFastaSize_fast.scan
  rw [fast_scanWith_eq_forLoop _ (by decide) fuel x hfuel, fast_forLoop_eq]
  · simp [GetFastaSize_fast.init]
  · simpa [GetFastaSize_fast.init, SIZE_MOD] using hlen

theorem fastA_scan_eq_residues (fuel : Nat) (x : List Nat)
    (hfuel : x.length < fuel) (hlen : x.length < 2 ^ 64) :
    GetFastaSize_fastA.scan fuel x = some (residues false x) := by
  unfold GetFastaSize_fastA.scan GetFastaSize_fastA.scanWith
  rw [fastA_whileLoop_eq _ (by decide) fuel x _ hfuel,
    fastA_forLoop_eq x _ (by decide), fast_forLoop_eq]
  · simp [GetFastaSize_fastA.init]
  · simpa [GetFastaSize_fastA.init, SIZE_MOD] using hlen

theorem ultrafast_scan_eq_residues (x : List Nat) (hne : x ≠ []) (hlen : x.length < 2 ^ 64) :
    GetFastaSize_ultrafast.scan x = some (residues false x) := by
  rw [ultrafast_scan_eq x hne, fast_forLoop_eq]
  · simp [GetFastaSize_fast.init]
  · simpa [GetFastaSize_fast.init, SIZE_MOD] using hlen

/-- The loop nest of `GetFastaSize_fast.c` run on any sequence of buffers
leaves the state of one pass over their concatenation. -/
theorem fast_chunks_eq (chunks : List (List Nat)) (st : Scan) :
    chunks.foldl GetFastaSize_fast.forLoop st = GetFastaSize_fast.forLoop st chunks.flatten := by
  induction chunks generalizing st with
  | nil => rfl
  | cons b chunks ih =>
    rw [List.foldl_cons, ih, List.flatten_cons, fast_forLoop_append]

/-! ## Headers and sequence lines -/

theorem residues_true_header (h rest : List Nat) (hh : ∀ c ∈ h, c ≠ NL) :
    residues true (h ++ NL :: rest) = residues false rest := by
  induction h with
  | nil => simp [residues, NL_ne_GT]
  | cons c h ih =>
    have e : (c :: h) ++ NL :: rest = c :: (h ++ NL :: rest) := rfl
    have hc : c ≠ NL := hh c (List.mem_cons_self _ _)
    have ih := ih (fun d hd => hh d (List.mem_cons_of_mem _ hd))
    rw [e]
    simp only [residues, hc, if_false]
    split
    · exact ih
    · simpa using ih

/-- A header line adds nothing, whatever the header flag before it. -/
theorem residues_header (b : Bool) (h rest : List Nat) (hh : ∀ c ∈ h, c ≠ NL) :
    residues b (GT :: (h ++ NL :: rest)) = residues false rest := by
  simp only [residues, if_true]
  exact residues_true_header h rest hh

/-- A sequence line adds its length. -/
theorem residues_line (l rest : List Nat) (hl : ∀ c ∈ l, c ≠ GT ∧ c ≠ NL) :
    residues false (l ++ NL :: rest) = l.length + residues false rest := by
  induction l with
  | nil => simp [residues, NL_ne_GT]
  | cons c l ih =>
    have e : (c :: l) ++ NL :: rest = c :: (l ++ NL :: rest) := rfl
    have hc := hl c (List.mem_cons_self _ _)
    have ih := ih (fun d hd => hl d (List.mem_cons_of_mem _ hd))
    rw [e]
    simp only [residues, hc.1, hc.2, if_false, ih, List.length_cons]
    simp
    omega

theorem residues_lines (ls : List (List Nat)) (rest : List Nat)
    (hls : ∀ l ∈ ls, ∀ c ∈ l, c ≠ GT ∧ c ≠ NL) :
    residues false ((ls.map (fun l => l ++ [NL])).flatten ++ rest) =
      (ls.map List.length).sum + residues false rest := by
  induction ls with
  | nil => simp
  | cons l ls ih =>
    have ih := ih (fun m hm => hls m (List.mem_cons_of_mem _ hm))
    have hl := hls l (List.mem_cons_self _ _)
    simp only [List.map_cons, List.flatten_cons, List.sum_cons, List.append_assoc,
      List.singleton_append, List.cons_append, List.nil_append]
    rw [residues_line l _ hl, ih, Nat.add_assoc]

theorem residues_renderFasta (recs : List (List Nat × List (List Nat))) (hwf : WellFormed recs) :
    residues false (renderFasta recs) = totalResidues recs := by
  induction recs with
  | nil => simp [renderFasta, totalResidues, residues]
  | cons r recs ih =>
    have ih := ih (fun q hq => hwf q (List.mem_cons_of_mem _ hq))
    have hr := hwf r (List.mem_cons_self _ _)
    have e : renderFasta (r :: recs) =
        GT :: (r.1 ++ NL :: ((r.2.map (fun l => l ++ [NL])).flatten ++ renderFasta recs)) := by
      simp [renderFasta, renderRecord]
    have e2 : totalResidues (r :: recs) = (r.2.map List.length).sum + totalResidues recs := by
      simp [totalResidues]
    rw [e, e2, residues_header false _ _ hr.1, residues_lines _ _ hr.2, ih]

theorem residues_no_GT (x : List Nat) (hno : GT ∉ x) :
    residues false x = (x.filter (fun c => decide (c ≠ NL))).length := by
  induction x with
  | nil => simp [residues]
  | cons c x ih =>
    have hc : c ≠ GT := fun h => hno (h ▸ List.mem_cons_self _ _)
    have ih := ih (fun h => hno (List.mem_cons_of_mem _ h))
    simp only [residues, hc, if_false]
    by_cases h2 : c = NL
    · simp [h2, ih]
    · simp [h2, ih]
      omega
/-! ## The header-skipping loop of `scripts/cstuff/GetFastaSize.c` -/

theorem toChar_EOF_ne_NL (signedChar : Bool) : toChar signedChar EOF ≠ (NL : Int) := by
  cases signedChar <;> decide

/-- Once the input is exhausted the inner loop keeps reading `EOF`, which is
not `'\n'`: it never leaves. -/
theorem skipLoop_nil (signedChar : Bool) (fuel : Nat) :
    Cstuff_GetFastaSize.skipLoop signedChar fuel [] = none := by
  induction fuel with
  | zero => rfl
  | succ fuel ih =>
    simp only [Cstuff_GetFastaSize.skipLoop, getchar]
    rw [if_pos (toChar_EOF_ne_NL signedChar)]
    exact ih

/-- The inner loop never leaves on input that holds no `'\n'`. -/
theorem skipLoop_no_newline (signedChar : Bool) (h : List Nat)
    (hh : ∀ c ∈ h, toChar signedChar (c : Int) ≠ (NL : Int)) (fuel : Nat) :
    Cstuff_GetFastaSize.skipLoop signedChar fuel h = none := by
  induction h generalizing fuel with
  | nil => exact skipLoop_nil signedChar fuel
  | cons c h ih =>
    cases fuel with
    | zero => rfl
    | succ fuel =>
      simp only [Cstuff_GetFastaSize.skipLoop, getchar]
      rw [if_pos (hh c (List.mem_cons_self _ _))]
      exact ih (fun d hd => hh d (List.mem_cons_of_mem _ hd)) fuel

/-! ## The 64-bit counter in general -/

/-- The count of one pass on any input, however long: the unbounded count
reduced modulo `2 ^ 64`. -/
theorem fast_forLoop_count_mod (x : List Nat) (st : Scan) (h : st.count < SIZE_MOD) :
    (GetFastaSize_fast.forLoop st x).count =
      (st.count + residues st.in_header x) % SIZE_MOD := by
  induction x generalizing st with
  | nil => simp [GetFastaSize_fast.forLoop, residues, Nat.mod_eq_of_lt h]
  | cons c x ih =>
    have hstep : GetFastaSize_fast.forLoop st (c :: x) =
        GetFastaSize_fast.forLoop (GetFastaSize_fast.step st c) x := rfl
    rw [hstep, ih _ (fast_step_count_lt st c h)]
    by_cases h1 : c = GT
    · simp [GetFastaSize_fast.step, residues, h1]
    · by_cases h2 : c = NL
      · simp [GetFastaSize_fast.step, residues, h2, NL_ne_GT]
      · cases hh : st.in_header
        · simp only [GetFastaSize_fast.step, residues, h1, h2, hh, if_false, Bool.not_false,
            if_true, Bool.false_eq_true]
          rw [Nat.mod_add_mod]
          congr 1
          omega
        · simp [GetFastaSize_fast.step, residues, h1, h2, hh]

/-- The streamed scan on any input, however long. -/
theorem fast_scan_eq_residues_mod (fuel : Nat) (x : List Nat) (hfuel : x.length < fuel) :
    GetFastaSize_fast.scan fuel x = some (residues false x % 2 ^ 64) := by
  unfold GetFastaSize_fast.scan
  rw [fast_scanWith_eq_forLoop _ (by decide) fuel x hfuel,
    fast_forLoop_count_mod x _ (by decide)]
  simp [GetFastaSize_fast.init, SIZE_MOD]

/-! ## Printing -/

theorem udigits_zero (fuel : Nat) : udigits fuel 0 = [] := by
  cases fuel <;> simp [udigits]

theorem udigits_ne_nil (fuel v : Nat) (hf : 0 < fuel) (hv : 0 < v) : udigits fuel v ≠ [] := by
  cases fuel with
  | zero => omega
  | succ fuel => simp [udigits, Nat.ne_of_gt hv]

theorem digitChar_eq (d : Nat) (hd : d < 10) : Nat.digitChar d = Char.ofNat (48 + d) := by
  interval_cases d <;> rfl

/-- The digits `printf` produces for a nonzero value are those of the decimal
representation `Nat.toDigits 10`. -/
theorem toDigitsCore_eq_udigits (f1 f2 v : Nat) (ds : List Char)
    (hv : 0 < v) (h1 : v ≤ f1) (h2 : v ≤ f2) :
    Nat.toDigitsCore 10 f1 v ds = udigits f2 v ++ ds := by
  induction f1 generalizing f2 v ds with
  | zero => omega
  | succ f1 ih =>
    cases f2 with
    | zero => omega
    | succ f2 =>
      simp only [Nat.toDigitsCore, udigits, Nat.ne_of_gt hv, if_false]
      rw [digitChar_eq _ (Nat.mod_lt _ (by decide))]
      by_cases h0 : v / 10 = 0
      · simp [h0, udigits_zero]
      · rw [if_neg h0]
        have hlt : v / 10 < v := Nat.div_lt_self hv (by decide)
        rw [ih f2 (v / 10) _ (Nat.pos_of_ne_zero h0) (by omega) (by omega)]
        simp

/-- The conversion `%lu` writes the decimal representation of the value. -/
theorem conv_lu_one (v : Nat) : conv_lu 1 v = Nat.toDigits 10 v := by
  by_cases hv : v = 0
  · subst hv
    rfl
  · have hpos : 0 < v := Nat.pos_of_ne_zero hv
    have hne : udigits v v ≠ [] := udigits_ne_nil v v hpos hpos
    have hlen : 1 - (udigits v v).length = 0 := by
      have : 0 < (udigits v v).length := List.length_pos.mpr hne
      omega
    unfold conv_lu Nat.toDigits
    simp only [hlen, List.replicate_zero, List.nil_append]
    rw [toDigitsCore_eq_udigits (v + 1) v v [] hpos (by omega) (Nat.le_refl v)]
    simp

/-- The conversion `%.0lu` writes the decimal representation of a nonzero
value, and nothing for zero. -/
theorem conv_lu_zero (v : Nat) : conv_lu 0 v = if v = 0 then [] else Nat.toDigits 10 v := by
  by_cases hv : v = 0
  · subst hv
    rfl
  · have hpos : 0 < v := Nat.pos_of_ne_zero hv
    rw [if_neg hv]
    unfold conv_lu Nat.toDigits
    simp only [Nat.zero_sub, List.replicate_zero, List.nil_append]
    rw [toDigitsCore_eq_udigits (v + 1) v v [] hpos (by omega) (Nat.le_refl v)]
    simp

/-- With `"%lu\n"` every count is printed as its decimal representation and a
newline. -/
theorem printf_lu_decimal (count : Nat) (h : count < 2 ^ 64) :
    printf_lu count = Nat.toDigits 10 count ++ [Char.ofNat 10] := by
  unfold printf_lu
  rw [conv_lu_one, Nat.mod_eq_of_lt (by simpa [SIZE_MOD] using h)]

/-- With `"%.0lu\n"` every nonzero count is printed as its decimal
representation and a newline. -/
theorem printf_p0_lu_decimal (count : Nat) (h : count < 2 ^ 64) (hpos : 0 < count) :
    printf_p0_lu count = Nat.toDigits 10 count ++ [Char.ofNat 10] := by
  unfold printf_p0_lu
  rw [conv_lu_zero, Nat.mod_eq_of_lt (by simpa [SIZE_MOD] using h),
    if_neg (Nat.ne_of_gt hpos)]

/-! ## Literal scenarios of the specification -/

/-- The input `">seq1\nACGT\n"` gives 4. -/
theorem scenario_seq1 :
    GetFastaSize_fast.scan 12 [62, 115, 101, 113, 49, 10, 65, 67, 71, 84, 10] = some 4 := by
  decide

/-- The input `">a\nAC\n>b\nGTT\n"` gives 5. -/
theorem scenario_two_records :
    GetFastaSize_fast.scan 14 [62, 97, 10, 65, 67, 10, 62, 98, 10, 71, 84, 84, 10] = some 5 := by
  decide

/-- The empty input gives 0. -/
theorem scenario_empty : GetFastaSize_fast.scan 1 [] = some 0 := by
  decide

/-- The input `"ACGT\n"` gives 4. -/
theorem scenario_no_header : GetFastaSize_fast.scan 6 [65, 67, 71, 84, 10] = some 4 := by
  decide

/-- The input `">only_header\n"` gives 0. -/
theorem scenario_only_header :
    GetFastaSize_fast.scan 14
      [62, 111, 110, 108, 121, 95, 104, 101, 97, 100, 101, 114, 10] = some 0 := by
  decide

/-- A final sequence line without its `'\n'` is counted: `">a\nACG"` gives 3. -/
theorem scenario_unterminated_line :
    GetFastaSize_fast.scan 7 [62, 97, 10, 65, 67, 71] = some 3 := by
  decide

/-! ## Bounds on the count and the final state -/

theorem fast_step_count_cases (st : Scan) (c : Nat) (h : st.count + 1 < SIZE_MOD) :
    (GetFastaSize_fast.step st c).count = st.count ∨
      (GetFastaSize_fast.step st c).count = st.count + 1 := by
  unfold GetFastaSize_fast.step
  split
  · exact Or.inl rfl
  · split
    · exact Or.inl rfl
    · split
      · exact Or.inr (Nat.mod_eq_of_lt h)
      · exact Or.inl rfl

/-- Every byte is a residue or a `'>'` or a `'\n'` or a header byte: residues
and marks together do not exceed the length. -/
theorem residues_add_marks_le (h : Bool) (x : List Nat) :
    residues h x + x.countP (fun c => decide (c = GT ∨ c = NL)) ≤ x.length := by
  induction x generalizing h with
  | nil => simp [residues]
  | cons c x ih =>
    by_cases h1 : c = GT
    · have := ih true
      rw [List.countP_cons_of_pos _ _ (by simp [h1])]
      simp only [residues, h1, if_true, List.length_cons]
      omega
    · by_cases h2 : c = NL
      · have := ih false
        rw [List.countP_cons_of_pos _ _ (by simp [h2])]
        subst h2
        simp only [residues, NL_ne_GT, if_true, if_false, List.length_cons]
        omega
      · have := ih h
        rw [List.countP_cons_of_neg _ _ (by simp [h1, h2])]
        simp only [residues, h1, h2, if_false, List.length_cons]
        split <;> omega

/-- The header flag is up after `x` exactly when `x` holds a `'>'` with no
`'\n'` after it, or holds neither byte and the flag was up before. -/
theorem headerAfter_true_iff (s0 : Bool) (x : List Nat) :
    headerAfter s0 x = true ↔
      (∃ a b, x = a ++ GT :: b ∧ NL ∉ b) ∨ (GT ∉ x ∧ NL ∉ x ∧ s0 = true) := by
  induction x using List.reverseRecOn with
  | nil => simp [headerAfter]
  | append_singleton x c ih =>
    rw [headerAfter_snoc]
    by_cases h1 : c = GT
    · subst h1
      simp only [if_true, true_iff]
      exact Or.inl ⟨x, [], rfl, by simp⟩
    · by_cases h2 : c = NL
      · subst h2
        simp only [NL_ne_GT, if_false, if_true, Bool.false_eq_true, false_iff]
        rintro (⟨a, b, hab, hb⟩ | ⟨_, hnl, _⟩)
        · rcases List.eq_nil_or_concat b with hb0 | ⟨b', d, hbd⟩
          · subst hb0
            have := (List.append_inj' hab (by simp)).2
            simp at this
            exact NL_ne_GT this
          · subst hbd
            rw [List.concat_eq_append] at hab hb
            have e : a ++ GT :: (b' ++ [d]) = (a ++ GT :: b') ++ [d] := by simp
            rw [e] at hab
            have := (List.append_inj' hab (by simp)).2
            simp at this
            subst this
            exact hb (by simp)
        · exact hnl (by simp)
      · simp only [h1, h2, if_false]
        rw [ih]
        constructor
        · rintro (⟨a, b, hab, hb⟩ | ⟨hg, hn, hs⟩)
          · refine Or.inl ⟨a, b ++ [c], by simp [hab], ?_⟩
            simp only [List.mem_append, List.mem_singleton, not_or]
            exact ⟨hb, fun h => h2 h.symm⟩
          · refine Or.inr ⟨?_, ?_, hs⟩
            · simp only [List.mem_append, List.mem_singleton, not_or]
              exact ⟨hg, fun h => h1 h.symm⟩
            · simp only [List.mem_append, List.mem_singleton, not_or]
              exact ⟨hn, fun h => h2 h.symm⟩
        · rintro (⟨a, b, hab, hb⟩ | ⟨hg, hn, hs⟩)
          · rcases List.eq_nil_or_concat b with hb0 | ⟨b', d, hbd⟩
            · subst hb0
              have := (List.append_inj' hab (by simp)).2
              simp at this
              exact absurd this h1
            · subst hbd
              rw [List.concat_eq_append] at hab hb
              have e : a ++ GT :: (b' ++ [d]) = (a ++ GT :: b') ++ [d] := by simp
              rw [e] at hab
              have hx := (List.append_inj' hab (by simp)).1
              refine Or.inl ⟨a, b', hx, ?_⟩
              intro hmem
              exact hb (by simp [hmem])
          · refine Or.inr ⟨?_, ?_, hs⟩
            · intro h
              exact hg (by simp [h])
            · intro h
              exact hn (by simp [h])

/-! ## The five-branch chain of `scripts/GetFastaSize.c` -/

/-- With `head` holding `IN` or `OUT`, one pass of the five-branch chain is one
step of the if/else chain of `GetFastaSize_fast.c`. -/
theorem scripts_step_eq (n : Nat) (b : Bool) (c : Nat) :
    Scripts_GetFastaSize.step
        (n, if b then Scripts_GetFastaSize.IN else Scripts_GetFastaSize.OUT) c =
      ((GetFastaSize_fast.step { count := n, in_header := b } c).count,
        if (GetFastaSize_fast.step { count := n, in_header := b } c).in_header
          then Scripts_GetFastaSize.IN else Scripts_GetFastaSize.OUT) := by
  by_cases h1 : c = GT
  · simp [Scripts_GetFastaSize.step, GetFastaSize_fast.step, h1]
  · by_cases h2 : c = NL
    · cases b <;>
        simp [Scripts_GetFastaSize.step, GetFastaSize_fast.step, h2, NL_ne_GT,
          Scripts_GetFastaSize.IN, Scripts_GetFastaSize.OUT]
    · cases b <;>
        simp [Scripts_GetFastaSize.step, GetFastaSize_fast.step, h1, h2,
          Scripts_GetFastaSize.IN, Scripts_GetFastaSize.OUT]

theorem scripts_foldl_eq (x : List Nat) (n : Nat) (b : Bool) :
    x.foldl Scripts_GetFastaSize.step
        (n, if b then Scripts_GetFastaSize.IN else Scripts_GetFastaSize.OUT) =
      ((GetFastaSize_fast.forLoop { count := n, in_header := b } x).count,
        if (GetFastaSize_fast.forLoop { count := n, in_header := b } x).in_header
          then Scripts_GetFastaSize.IN else Scripts_GetFastaSize.OUT) := by
  induction x generalizing n b with
  | nil => rfl
  | cons c x ih =>
    have e : GetFastaSize_fast.forLoop { count := n, in_header := b } (c :: x) =
        GetFastaSize_fast.forLoop (GetFastaSize_fast.step { count := n, in_header := b } c) x :=
      rfl
    rw [List.foldl_cons, scripts_step_eq, ih, e]

/-- The scan of `scripts/GetFastaSize.c` with `head` starting as `OUT`. -/
theorem scripts_scan_OUT (x : List Nat) :
    Scripts_GetFastaSize.scan Scripts_GetFastaSize.OUT x =
      (GetFastaSize_fast.forLoop GetFastaSize_fast.init x).count := by
  have h := scripts_foldl_eq x 0 false
  simp only [Bool.false_eq_true, if_false] at h
  unfold Scripts_GetFastaSize.scan
  rw [h]
  rfl

/-- The scan of `scripts/GetFastaSize.c` on an input that begins with `'>'`,
whatever `head` holds at the start. -/
theorem scripts_scan_GT (v : Int) (x : List Nat) :
    Scripts_GetFastaSize.scan v (GT :: x) =
      (GetFastaSize_fast.forLoop GetFastaSize_fast.init (GT :: x)).count := by
  have h := scripts_foldl_eq x 0 true
  simp only [if_true] at h
  have e1 : Scripts_GetFastaSize.step (0, v) GT = (0, Scripts_GetFastaSize.IN) := by
    simp [Scripts_GetFastaSize.step]
  have e2 : GetFastaSize_fast.forLoop GetFastaSize_fast.init (GT :: x) =
      GetFastaSize_fast.forLoop { count := 0, in_header := true } x := by
    have : GetFastaSize_fast.step GetFastaSize_fast.init GT =
        { count := 0, in_header := true } := by
      simp [GetFastaSize_fast.step, GetFastaSize_fast.init]
    show GetFastaSize_fast.forLoop (GetFastaSize_fast.step GetFastaSize_fast.init GT) x = _
    rw [this]
  unfold Scripts_GetFastaSize.scan
  rw [List.foldl_cons, e1, h, e2]

/-! ## The `char` that holds `getchar ()` in `scripts/cstuff/GetFastaSize.c` -/

/-- An unsigned `char` never compares equal to `EOF`. -/
theorem toChar_unsigned_ne_EOF (r : Int) : toChar false r ≠ EOF := by
  have h : 0 ≤ r % 256 := Int.emod_nonneg r (by decide)
  simp only [toChar, Bool.false_eq_true, if_false, EOF]
  omega

/-- With an unsigned `char` the loop `while ((current = getchar()) != EOF)`
never ends, on any input. -/
theorem cstuff_whileLoop_unsigned (fuel : Nat) (x : List Nat) (count : Nat) :
    Cstuff_GetFastaSize.whileLoop false fuel x count = none := by
  induction fuel generalizing x count with
  | zero => rfl
  | succ fuel ih =>
    simp only [Cstuff_GetFastaSize.whileLoop]
    rw [if_pos (toChar_unsigned_ne_EOF _)]
    split
    · rfl
    · exact ih _ _

/-! ## Where `scripts/cstuff/GetFastaSize.c` agrees with the state machine -/

theorem toChar_signed_ne_EOF (b : Nat) (hb : b < 255) : toChar true (b : Int) ≠ EOF := by
  simp only [toChar, if_true, EOF]
  omega

theorem toChar_signed_eq_GT (b : Nat) (hb : b < 256) :
    toChar true (b : Int) = (GT : Int) ↔ b = GT := by
  simp only [toChar, if_true, GT, Nat.cast_ofNat]
  omega

theorem toChar_signed_eq_NL (b : Nat) (hb : b < 256) :
    toChar true (b : Int) = (NL : Int) ↔ b = NL := by
  simp only [toChar, if_true, NL, Nat.cast_ofNat]
  omega

/-- The inner loop leaves at the first `'\n'`, with `current` holding it. -/
theorem cstuff_skipLoop_header (h rest : List Nat) (hh : ∀ c ∈ h, c ≠ NL ∧ c < 256)
    (fuel : Nat) (hf : h.length < fuel) :
    Cstuff_GetFastaSize.skipLoop true fuel (h ++ NL :: rest) = some ((NL : Int), rest) := by
  induction h generalizing fuel with
  | nil =>
    cases fuel with
    | zero => simp at hf
    | succ fuel =>
      have e : toChar true ((NL : Nat) : Int) = (NL : Int) := by decide
      simp [Cstuff_GetFastaSize.skipLoop, getchar, e]
  | cons c h ih =>
    cases fuel with
    | zero => simp at hf
    | succ fuel =>
      have hc := hh c (List.mem_cons_self _ _)
      have hne : toChar true (c : Int) ≠ (NL : Int) :=
        fun e => hc.1 ((toChar_signed_eq_NL c hc.2).mp e)
      have e : (c :: h) ++ NL :: rest = c :: (h ++ NL :: rest) := rfl
      rw [e]
      simp only [Cstuff_GetFastaSize.skipLoop, getchar]
      rw [if_pos hne]
      exact ih (fun d hd => hh d (List.mem_cons_of_mem _ hd)) fuel
        (by simp only [List.length_cons] at hf; omega)

/-- With a signed `char`, on input without the byte 255 in which every `'>'`
is followed later by a `'\n'`, the loop of `scripts/cstuff/GetFastaSize.c`
ends with the count of the state machine. -/
theorem cstuff_whileLoop_signed (fuel : Nat) (x : List Nat) (count : Nat)
    (hfuel : x.length < fuel) (hb : ∀ c ∈ x, c < 255)
    (hterm : ∀ a b, x = a ++ GT :: b → NL ∈ b) (hcount : count < SIZE_MOD) :
    Cstuff_GetFastaSize.whileLoop true fuel x count =
      some ((count + residues false x) % SIZE_MOD) := by
  · induction fuel generalizing x count with
    | zero => omega
    | succ fuel ih =>
      cases x with
      | nil =>
        have e : toChar true EOF = EOF := by decide
        simp [Cstuff_GetFastaSize.whileLoop, getchar, e, residues, Nat.mod_eq_of_lt hcount]
      | cons c rest =>
        have hc : c < 255 := hb c (List.mem_cons_self _ _)
        have hrest : ∀ d ∈ rest, d < 255 := fun d hd => hb d (List.mem_cons_of_mem _ hd)
        have hlen : rest.length < fuel := by
          simp only [List.length_cons] at hfuel; omega
        simp only [Cstuff_GetFastaSize.whileLoop, getchar]
        rw [if_pos (toChar_signed_ne_EOF c hc)]
        by_cases h1 : c = GT
        · subst h1
          obtain ⟨h, rest', hsplit, hh⟩ := List.eq_append_cons_of_mem (hterm [] rest rfl)
          have hhb : ∀ d ∈ h, d ≠ NL ∧ d < 256 := by
            intro d hd
            refine ⟨fun e => hh (e ▸ hd), ?_⟩
            have := hrest d (by rw [hsplit]; simp [hd])
            omega
          have hl : rest.length = h.length + (rest'.length + 1) := by
            rw [hsplit]; simp
          rw [if_pos ((toChar_signed_eq_GT GT (by decide)).mpr rfl), hsplit,
            cstuff_skipLoop_header h rest' hhb fuel (by omega)]
          simp only [ne_eq, not_true_eq_false, if_false]
          rw [ih rest' count (by omega)
            (fun d hd => hrest d (by rw [hsplit]; simp [hd]))
            (fun a b hab => hterm (GT :: (h ++ NL :: a)) b (by rw [hsplit, hab]; simp)) hcount,
            residues_header false h rest' (fun d hd => (hhb d hd).1)]
        · rw [if_neg (fun e => h1 ((toChar_signed_eq_GT c (by omega)).mp e))]
          have hterm' : ∀ a b, rest = a ++ GT :: b → NL ∈ b :=
            fun a b hab => hterm (c :: a) b (by rw [hab]; rfl)
          by_cases h2 : c = NL
          · subst h2
            have e : toChar true ((NL : Nat) : Int) = (NL : Int) := by decide
            simp only [e, ne_eq, not_true_eq_false, if_false]
            rw [ih rest count hlen hrest hterm' hcount]
            simp [residues, NL_ne_GT]
          · have hne : toChar true (c : Int) ≠ (NL : Int) :=
              fun e => h2 ((toChar_signed_eq_NL c (by omega)).mp e)
            simp only [hne, ne_eq, not_false_eq_true, if_true]
            rw [ih rest _ hlen hrest hterm' (Nat.mod_lt _ (by decide))]
            simp only [residues, h1, h2, if_false, Bool.false_eq_true]
            rw [Nat.mod_add_mod]
            congr 2
            omega

/-- With a signed `char`, on input without the byte 255 in which every `'>'`
is followed later by a `'\n'`, the scan of `scripts/cstuff/GetFastaSize.c`
returns what the scan of `GetFastaSize_fast.c` returns. -/
theorem cstuff_scan_eq_fast (fuel : Nat) (x : List Nat)
    (hfuel : x.length < fuel) (hb : ∀ c ∈ x, c < 255)
    (hterm : ∀ a b, x = a ++ GT :: b → NL ∈ b) :
    Cstuff_GetFastaSize.scan true fuel x = GetFastaSize_fast.scan fuel x := by
  rw [fast_scan_eq_residues_mod fuel x hfuel]
  unfold Cstuff_GetFastaSize.scan
  rw [cstuff_whileLoop_signed fuel x 0 hfuel hb hterm (by decide)]
  simp [SIZE_MOD]

/-- On a zero-length file `GetFastaSize_ultrafast.c` exits with status 1 and
prints no count; on the file `"ACGT\n"` it exits with status 0 and prints 4. -/
theorem scenario_ultrafast_files :
    GetFastaSize_ultrafast.main 2 (some []) true = (1, []) ∧
    GetFastaSize_ultrafast.main 2 (some [65, 67, 71, 84, 10]) true =
      (0, ['4', Char.ofNat 10]) := by
  decide

/-! ## Properties of the scans -/

/-- C1: for every byte sequence (shorter than `2 ^ 64` bytes, so that the
64-bit counter holds the count), the streamed branching scan of
`GetFastaSize_fast.c`, started with the header flag false, ends and returns
the number of positions whose byte is neither `'>'` nor `'\n'` and whose
nearest earlier `'>'` or `'\n'`, if there is one, is a `'\n'`. -/
theorem C1_scan_counts_residue_positions (x : List Nat) (fuel : Nat)
    (hfuel : x.length < fuel) (hlen : x.length < 2 ^ 64) :
    GetFastaSize_fast.scan fuel x = some (residuePositions x).length := by
  rw [fast_scan_eq_residues fuel x hfuel hlen, residues_eq_positions]

theorem C1_scan_counts_residue_positions_witness :
    [62, 97, 10, 65, 67, 10, 62, 98, 10, 71, 84, 84, 10].length < 14 ∧
    [62, 97, 10, 65, 67, 10, 62, 98, 10, 71, 84, 84, 10].length < 2 ^ 64 ∧
    GetFastaSize_fast.scan 14 [62, 97, 10, 65, 67, 10, 62, 98, 10, 71, 84, 84, 10] =
      some (residuePositions [62, 97, 10, 65, 67, 10, 62, 98, 10, 71, 84, 84, 10]).length :=
  ⟨by decide, by decide,
    C1_scan_counts_residue_positions [62, 97, 10, 65, 67, 10, 62, 98, 10, 71, 84, 84, 10] 14
      (by decide) (by decide)⟩

/-- C2: on a well-formed FASTA input, the concatenation of records
`'>' ++ h ++ '\n' ++ l_1 ++ '\n' ++ ... ++ l_k ++ '\n'` whose header texts hold
no `'\n'` and whose sequence lines hold neither `'>'` nor `'\n'`, the scan of
`GetFastaSize_fast.c` ends and returns the sum of the lengths of all sequence
lines (the input being shorter than `2 ^ 64` bytes). -/
theorem C2_wellformed_fasta_total (recs : List (List Nat × List (List Nat))) (fuel : Nat)
    (hwf : WellFormed recs) (hfuel : (renderFasta recs).length < fuel)
    (hlen : (renderFasta recs).length < 2 ^ 64) :
    GetFastaSize_fast.scan fuel (renderFasta recs) = some (totalResidues recs) := by
  rw [fast_scan_eq_residues fuel _ hfuel hlen, residues_renderFasta recs hwf]

theorem C2_wellformed_fasta_total_witness :
    WellFormed [([97], [[65, 67]]), ([98], [[71, 84, 84]])] ∧
    (renderFasta [([97], [[65, 67]]), ([98], [[71, 84, 84]])]).length < 14 ∧
    (renderFasta [([97], [[65, 67]]), ([98], [[71, 84, 84]])]).length < 2 ^ 64 ∧
    GetFastaSize_fast.scan 14 (renderFasta [([97], [[65, 67]]), ([98], [[71, 84, 84]])]) =
      some (totalResidues [([97], [[65, 67]]), ([98], [[71, 84, 84]])]) :=
  ⟨by decide, by decide, by decide,
    C2_wellformed_fasta_total [([97], [[65, 67]]), ([98], [[71, 84, 84]])] 14
      (by decide) (by decide) (by decide)⟩

/-- C3: for every byte sequence, the branchless per-byte update of
`GetFastaSize_fastA.c` and the if/else chain of `GetFastaSize_fast.c`, both
started with count 0 and the header flag false, leave the same final count
and the same final header flag. -/
theorem C3_branchless_equals_branching (x : List Nat) :
    (GetFastaSize_fastA.forLoop GetFastaSize_fastA.init x).count =
      (GetFastaSize_fast.forLoop GetFastaSize_fast.init x).count ∧
    (GetFastaSize_fastA.forLoop GetFastaSize_fastA.init x).in_header =
      (GetFastaSize_fast.forLoop GetFastaSize_fast.init x).in_header := by
  have h : GetFastaSize_fastA.forLoop GetFastaSize_fastA.init x =
      GetFastaSize_fast.forLoop GetFastaSize_fast.init x :=
    fastA_forLoop_eq x _ (by decide)
  rw [h]
  exact ⟨rfl, rfl⟩

/-- C4: for every byte sequence, the chunk loop of `GetFastaSize_fast.c`,
carrying count and header flag from chunk to chunk, gives the count of a
single pass over the unsplit sequence: with every buffer size `sz >= 1` (reads
of `sz` bytes, the last read possibly shorter) the scan ends and returns that
count, and so does the loop nest on any other split of the sequence into
consecutive chunks. -/
theorem C4_chunk_size_invariance (sz : Nat) (x : List Nat) (chunks : List (List Nat))
    (fuel : Nat) (hsz : 1 ≤ sz) (hfuel : x.length < fuel) (hsplit : chunks.flatten = x) :
    GetFastaSize_fast.scanWith sz fuel x =
      some (GetFastaSize_fast.forLoop GetFastaSize_fast.init x).count ∧
    (chunks.foldl GetFastaSize_fast.forLoop GetFastaSize_fast.init).count =
      (GetFastaSize_fast.forLoop GetFastaSize_fast.init x).count := by
  refine ⟨fast_scanWith_eq_forLoop sz hsz fuel x hfuel, ?_⟩
  rw [fast_chunks_eq, hsplit]

theorem C4_chunk_size_invariance_witness :
    1 ≤ 1 ∧ [65, 62, 97, 10, 67, 71].length < 7 ∧
    [[65, 62], [97, 10, 67], [71]].flatten = [65, 62, 97, 10, 67, 71] ∧
    GetFastaSize_fast.scanWith 1 7 [65, 62, 97, 10, 67, 71] =
      some (GetFastaSize_fast.forLoop GetFastaSize_fast.init [65, 62, 97, 10, 67, 71]).count ∧
    (List.foldl GetFastaSize_fast.forLoop GetFastaSize_fast.init
        [[65, 62], [97, 10, 67], [71]]).count =
      (GetFastaSize_fast.forLoop GetFastaSize_fast.init [65, 62, 97, 10, 67, 71]).count :=
  ⟨by decide, by decide, by decide,
    C4_chunk_size_invariance 1 [65, 62, 97, 10, 67, 71] [[65, 62], [97, 10, 67], [71]] 7
      (by decide) (by decide) (by decide)⟩

/-- C5 as stated fails on the empty byte sequence: the streamed scan of
`GetFastaSize_fast.c` returns the count 0, while `GetFastaSize_ultrafast.c`
cannot map a zero-length file and returns no count. -/
theorem C5_counterexample_empty_file :
    GetFastaSize_fast.scan 1 [] = some 0 ∧
    GetFastaSize_ultrafast.scan [] = none ∧
    GetFastaSize_ultrafast.scan [] ≠ GetFastaSize_fast.scan 1 [] := by
  decide

/-- C5, amended: for every byte sequence that is not empty, the mapped scan of
`GetFastaSize_ultrafast.c` (one pass over all `size` bytes) returns a count,
and the streamed scan of `GetFastaSize_fast.c` (16384-byte chunks) ends and
returns the same count on the same bytes. -/
theorem C5_mapped_equals_streamed (x : List Nat) (fuel : Nat)
    (hne : x ≠ []) (hfuel : x.length < fuel) :
    ∃ n, GetFastaSize_ultrafast.scan x = some n ∧ GetFastaSize_fast.scan fuel x = some n := by
  refine ⟨(GetFastaSize_fast.forLoop GetFastaSize_fast.init x).count,
    ultrafast_scan_eq x hne, ?_⟩
  unfold GetFastaSize_fast.scan
  exact fast_scanWith_eq_forLoop _ (by decide) fuel x hfuel

theorem C5_mapped_equals_streamed_witness :
    [62, 97, 10, 65, 67, 10, 62, 98, 10, 71, 84, 84, 10] ≠ [] ∧
    [62, 97, 10, 65, 67, 10, 62, 98, 10, 71, 84, 84, 10].length < 14 ∧
    ∃ n, GetFastaSize_ultrafast.scan [62, 97, 10, 65, 67, 10, 62, 98, 10, 71, 84, 84, 10] =
        some n ∧
      GetFastaSize_fast.scan 14 [62, 97, 10, 65, 67, 10, 62, 98, 10, 71, 84, 84, 10] = some n :=
  ⟨by decide, by decide,
    C5_mapped_equals_streamed [62, 97, 10, 65, 67, 10, 62, 98, 10, 71, 84, 84, 10] 14
      (by decide) (by decide)⟩

/-- C6: header exclusion. For every prefix `p`, every header text `h` without
`'\n'` (any other byte, `'>'` included, may occur in it) and every suffix `s`,
the scan of `GetFastaSize_fast.c` on `p ++ '>' ++ h ++ '\n' ++ s` returns the
sum of its counts on `p` and on `s` (the whole input being shorter than
`2 ^ 64` bytes); all three scans end. -/
theorem C6_header_exclusion (p h s : List Nat) (fuel : Nat)
    (hh : ∀ c ∈ h, c ≠ NL)
    (hfuel : (p ++ GT :: (h ++ NL :: s)).length < fuel)
    (hlen : (p ++ GT :: (h ++ NL :: s)).length < 2 ^ 64) :
    ∃ np ns, GetFastaSize_fast.scan fuel p = some np ∧
      GetFastaSize_fast.scan fuel s = some ns ∧
      GetFastaSize_fast.scan fuel (p ++ GT :: (h ++ NL :: s)) = some (np + ns) := by
  have hl : (p ++ GT :: (h ++ NL :: s)).length = p.length + (h.length + (s.length + 1) + 1) := by
    simp
  refine ⟨residues false p, residues false s, ?_, ?_, ?_⟩
  · exact fast_scan_eq_residues fuel p (by omega) (by omega)
  · exact fast_scan_eq_residues fuel s (by omega) (by omega)
  · rw [fast_scan_eq_residues fuel _ hfuel hlen, residues_append, residues_header _ h s hh]

theorem C6_header_exclusion_witness :
    (∀ c ∈ [111, 62, 110], c ≠ NL) ∧
    (([65] : List Nat) ++ GT :: ([111, 62, 110] ++ NL :: [67, 71])).length < 9 ∧
    (([65] : List Nat) ++ GT :: ([111, 62, 110] ++ NL :: [67, 71])).length < 2 ^ 64 ∧
    ∃ np ns, GetFastaSize_fast.scan 9 [65] = some np ∧
      GetFastaSize_fast.scan 9 [67, 71] = some ns ∧
      GetFastaSize_fast.scan 9 ([65] ++ GT :: ([111, 62, 110] ++ NL :: [67, 71])) =
        some (np + ns) :=
  ⟨by decide, by decide, by decide,
    C6_header_exclusion [65] [111, 62, 110] [67, 71] 9 (by decide) (by decide) (by decide)⟩

/-- C7 as stated fails on the empty input for `GetFastaSize_ultrafast.c`: the
empty byte sequence holds no `'>'`, yet the program cannot map a zero-length
file and returns no count instead of 0. -/
theorem C7_counterexample_empty_file :
    GT ∉ ([] : List Nat) ∧
    GetFastaSize_ultrafast.scan [] = none ∧
    GetFastaSize_ultrafast.scan [] ≠
      some (([] : List Nat).filter (fun c => decide (c ≠ NL))).length := by
  decide

/-- C7, amended: for every byte sequence without a `'>'` byte (and shorter than
`2 ^ 64` bytes), the scans of `GetFastaSize_fast.c` and `GetFastaSize_fastA.c`
return the number of bytes different from `'\n'`, 0 for the empty input; the
scan of `GetFastaSize_ultrafast.c` returns that number when the input is not
empty, and no count when it is empty. -/
theorem C7_headerless_input_counts_non_newlines (x : List Nat) (fuel : Nat)
    (hno : GT ∉ x) (hfuel : x.length < fuel) (hlen : x.length < 2 ^ 64) :
    GetFastaSize_fast.scan fuel x = some (x.filter (fun c => decide (c ≠ NL))).length ∧
    GetFastaSize_fastA.scan fuel x = some (x.filter (fun c => decide (c ≠ NL))).length ∧
    GetFastaSize_ultrafast.scan x =
      (if x = [] then none else some (x.filter (fun c => decide (c ≠ NL))).length) := by
  rw [fast_scan_eq_residues fuel x hfuel hlen, fastA_scan_eq_residues fuel x hfuel hlen,
    residues_no_GT x hno]
  refine ⟨rfl, rfl, ?_⟩
  by_cases hx : x = []
  · rw [if_pos hx, hx]
    rfl
  · rw [if_neg hx, ultrafast_scan_eq_residues x hx hlen, residues_no_GT x hno]

theorem C7_headerless_input_counts_non_newlines_witness :
    GT ∉ [65, 67, 71, 84, 10] ∧ [65, 67, 71, 84, 10].length < 6 ∧
    [65, 67, 71, 84, 10].length < 2 ^ 64 ∧
    GetFastaSize_fast.scan 6 [65, 67, 71, 84, 10] =
      some ([65, 67, 71, 84, 10].filter (fun c => decide (c ≠ NL))).length ∧
    GetFastaSize_fastA.scan 6 [65, 67, 71, 84, 10] =
      some ([65, 67, 71, 84, 10].filter (fun c => decide (c ≠ NL))).length ∧
    GetFastaSize_ultrafast.scan [65, 67, 71, 84, 10] =
      (if [65, 67, 71, 84, 10] = [] then none
        else some ([65, 67, 71, 84, 10].filter (fun c => decide (c ≠ NL))).length) :=
  ⟨by decide, by decide, by decide,
    C7_headerless_input_counts_non_newlines [65, 67, 71, 84, 10] 6
      (by decide) (by decide) (by decide)⟩

/-- C8: no trailing newline is needed. For every byte sequence `x`, the scan of
`GetFastaSize_fast.c` ends on `x` and on `x ++ '\n'` and returns the same
count for both. -/
theorem C8_trailing_newline_irrelevant (x : List Nat) (fuel : Nat)
    (hfuel : x.length + 1 < fuel) :
    ∃ n, GetFastaSize_fast.scan fuel x = some n ∧
      GetFastaSize_fast.scan fuel (x ++ [NL]) = some n := by
  refine ⟨(GetFastaSize_fast.forLoop GetFastaSize_fast.init x).count, ?_, ?_⟩
  · exact fast_scanWith_eq_forLoop _ (by decide) fuel x (by omega)
  · unfold GetFastaSize_fast.scan
    rw [fast_scanWith_eq_forLoop _ (by decide) fuel _ (by simpa using hfuel),
      fast_forLoop_append]
    simp [GetFastaSize_fast.forLoop, GetFastaSize_fast.step, NL_ne_GT]

theorem C8_trailing_newline_irrelevant_witness :
    [62, 97, 10, 65, 67].length + 1 < 7 ∧
    ∃ n, GetFastaSize_fast.scan 7 [62, 97, 10, 65, 67] = some n ∧
      GetFastaSize_fast.scan 7 ([62, 97, 10, 65, 67] ++ [NL]) = some n :=
  ⟨by decide, C8_trailing_newline_irrelevant [62, 97, 10, 65, 67] 7 (by decide)⟩

/-- C9: on the input `">abc"`, a header line without its terminating `'\n'`,
the scan of `scripts/cstuff/GetFastaSize.c` yields no count: the inner loop
`while ((current = getchar()) != '\n')` is running when the input ends, reads
`EOF` for ever and the scan returns nothing however many steps it is given,
with a signed and with an unsigned `char`. -/
theorem C9_unterminated_header_never_returns (signedChar : Bool) (fuel : Nat) :
    Cstuff_GetFastaSize.scan signedChar fuel [62, 97, 98, 99] = none := by
  cases fuel with
  | zero => rfl
  | succ fuel =>
    have hskip : Cstuff_GetFastaSize.skipLoop signedChar fuel [97, 98, 99] = none :=
      skipLoop_no_newline signedChar [97, 98, 99]
        (by cases signedChar <;> decide) fuel
    have h62 : toChar signedChar ((62 : Nat) : Int) = 62 := by
      cases signedChar <;> decide
    simp only [Cstuff_GetFastaSize.scan, Cstuff_GetFastaSize.whileLoop, getchar, h62]
    rw [if_pos (by decide), if_pos (by decide), hskip]

/-- C10: a count of zero is not printed as `"0"` by the variants that use the
format `"%.0lu\n"`. On the empty input `GetFastaSize_fastA.c`,
`scripts/cstuff/GetFastaSize.c` and `scripts/GetFastaSize.c` write a bare
newline, and so does `GetFastaSize_fastA.c` on the header-only input `">a\n"`,
while `GetFastaSize_fast.c` and `GetFastaSize_ultrafast.c`, which use
`"%lu\n"`, write `"0"` and a newline for a count of zero (the latter on the
header-only file `">a\n"`, which it can map). -/
theorem C10_zero_count_printed_without_digit :
    GetFastaSize_fastA.main 1 [] = some [Char.ofNat 10] ∧
    GetFastaSize_fastA.main 4 [62, 97, 10] = some [Char.ofNat 10] ∧
    Cstuff_GetFastaSize.main true 1 [] = some [Char.ofNat 10] ∧
    Scripts_GetFastaSize.main 0 [] = [Char.ofNat 10] ∧
    GetFastaSize_fast.main 1 [] = some ['0', Char.ofNat 10] ∧
    GetFastaSize_ultrafast.main 2 (some [62, 97, 10]) true = (0, ['0', Char.ofNat 10]) := by
  decide

/-- C11 as stated fails: for the byte `'>'` met with the header flag false the
branchless form of `GetFastaSize_fastA.c` adds 0 to the count, not the 1 that
the rule "flag false before the byte and byte not `'\n'`" gives. -/
theorem C11_counterexample_gt_not_counted :
    (GetFastaSize_fastA.step { count := 0, in_header := false } 62).count = 0 ∧
    (GetFastaSize_fastA.step { count := 0, in_header := false } 62).count ≠
      (0 + (if false = false ∧ 62 ≠ NL then 1 else 0)) % SIZE_MOD := by
  decide

/-- C11, amended: in the branchless form of `GetFastaSize_fastA.c`, for every
byte `c` and every header flag `h` held before `c` is processed, the amount
added to the 64-bit count for `c` is 1 exactly when `h` is false and `c` is
neither `'>'` nor `'\n'`, and 0 otherwise: the increment reads the flag after
`readId |= (c == '>')` and before `readId &= !isNewline`. -/
theorem C11_branchless_increment (st : Scan) (c : Nat) :
    (GetFastaSize_fastA.step st c).count =
      (st.count + (if st.in_header = false ∧ c ≠ GT ∧ c ≠ NL then 1 else 0)) % SIZE_MOD := by
  obtain ⟨n, b⟩ := st
  by_cases h1 : c = GT
  · simp [GetFastaSize_fastA.step, h1]
  · by_cases h2 : c = NL
    · simp [GetFastaSize_fastA.step, h2]
    · cases b <;> simp [GetFastaSize_fastA.step, h1, h2]

/-- C12: per-byte counting rule. For every byte `c` and every prior state, one
step of the scan of `GetFastaSize_fast.c`, and one of
`GetFastaSize_ultrafast.c`, increments the 64-bit count by exactly 1 when `c`
is not `'\n'` and the state after the transition for `c` (IN_HEADER if `c` is
`'>'`, IN_SEQUENCE if `c` is `'\n'`, otherwise the prior state) is
IN_SEQUENCE, and leaves the count unchanged otherwise; the flag after the
step is that state. -/
theorem C12_per_byte_counting_rule (st : Scan) (c : Nat) :
    (GetFastaSize_fast.step st c).count =
      (if c ≠ NL ∧ transition st.in_header c = false
        then (st.count + 1) % SIZE_MOD else st.count) ∧
    (GetFastaSize_ultrafast.step st c).count =
      (if c ≠ NL ∧ transition st.in_header c = false
        then (st.count + 1) % SIZE_MOD else st.count) ∧
    (GetFastaSize_fast.step st c).in_header = transition st.in_header c ∧
    (GetFastaSize_ultrafast.step st c).in_header = transition st.in_header c := by
  rw [ultrafast_step_eq]
  obtain ⟨n, b⟩ := st
  by_cases h1 : c = GT
  · simp [GetFastaSize_fast.step, transition, h1]
  · by_cases h2 : c = NL
    · simp [GetFastaSize_fast.step, transition, h2, NL_ne_GT]
    · cases b <;> simp [GetFastaSize_fast.step, transition, h1, h2]

/-- C13: for every input and every buffer size `sz >= 1`, the two phases of
`GetFastaSize_fastA.c`, the loop over the reads that returned exactly `sz`
bytes and the tail loop over the `N < sz` bytes of the last read, end and
return the count of a single branchless pass over the whole input, every byte
being processed once and in order; the input may be shorter than `sz` or an
exact multiple of it (`N = 0`). -/
theorem C13_two_phase_loop_is_single_pass (sz : Nat) (x : List Nat) (fuel : Nat)
    (hsz : 1 ≤ sz) (hfuel : x.length < fuel) :
    GetFastaSize_fastA.whileLoop sz fuel x GetFastaSize_fastA.init =
      some (GetFastaSize_fastA.forLoop GetFastaSize_fastA.init x) ∧
    GetFastaSize_fastA.scanWith sz fuel x =
      some (GetFastaSize_fastA.forLoop GetFastaSize_fastA.init x).count := by
  have h := fastA_whileLoop_eq sz hsz fuel x GetFastaSize_fastA.init hfuel
  refine ⟨h, ?_⟩
  unfold GetFastaSize_fastA.scanWith
  rw [h]
  rfl

theorem C13_two_phase_loop_is_single_pass_witness :
    1 ≤ 2 ∧ [62, 97, 10, 65].length < 5 ∧
    GetFastaSize_fastA.whileLoop 2 5 [62, 97, 10, 65] GetFastaSize_fastA.init =
      some (GetFastaSize_fastA.forLoop GetFastaSize_fastA.init [62, 97, 10, 65]) ∧
    GetFastaSize_fastA.scanWith 2 5 [62, 97, 10, 65] =
      some (GetFastaSize_fastA.forLoop GetFastaSize_fastA.init [62, 97, 10, 65]).count :=
  ⟨by decide, by decide,
    C13_two_phase_loop_is_single_pass 2 [62, 97, 10, 65] 5 (by decide) (by decide)⟩

/-- C14: the counter does not decrease over the scan of `GetFastaSize_fast.c`.
Each processed byte changes the count by 0 or +1 (the counter being below its
maximum), and for every byte sequence `x = p ++ s` shorter than `2 ^ 64` bytes
and its prefix `p` the scan ends on both with `count(p) <= count(x)`. -/
theorem C14_count_monotone (p s : List Nat) (fuel : Nat) (st : Scan) (c : Nat)
    (hfuel : (p ++ s).length < fuel) (hlen : (p ++ s).length < 2 ^ 64)
    (hst : st.count + 1 < 2 ^ 64) :
    ((GetFastaSize_fast.step st c).count = st.count ∨
      (GetFastaSize_fast.step st c).count = st.count + 1) ∧
    ∃ np nx, GetFastaSize_fast.scan fuel p = some np ∧
      GetFastaSize_fast.scan fuel (p ++ s) = some nx ∧ np ≤ nx := by
  have hl : (p ++ s).length = p.length + s.length := List.length_append _ _
  refine ⟨fast_step_count_cases st c (by simpa [SIZE_MOD] using hst),
    residues false p, residues false (p ++ s), ?_, ?_, ?_⟩
  · exact fast_scan_eq_residues fuel p (by omega) (by omega)
  · exact fast_scan_eq_residues fuel _ hfuel hlen
  · rw [residues_append]
    exact Nat.le_add_right _ _

theorem C14_count_monotone_witness :
    (([62, 97, 10, 65] : List Nat) ++ [67, 10, 71]).length < 8 ∧
    (([62, 97, 10, 65] : List Nat) ++ [67, 10, 71]).length < 2 ^ 64 ∧
    ({ count := 3, in_header := false } : Scan).count + 1 < 2 ^ 64 ∧
    ((GetFastaSize_fast.step { count := 3, in_header := false } 65).count =
        ({ count := 3, in_header := false } : Scan).count ∨
      (GetFastaSize_fast.step { count := 3, in_header := false } 65).count =
        ({ count := 3, in_header := false } : Scan).count + 1) ∧
    ∃ np nx, GetFastaSize_fast.scan 8 [62, 97, 10, 65] = some np ∧
      GetFastaSize_fast.scan 8 ([62, 97, 10, 65] ++ [67, 10, 71]) = some nx ∧ np ≤ nx :=
  ⟨by decide, by decide, by decide,
    C14_count_monotone [62, 97, 10, 65] [67, 10, 71] 8 { count := 3, in_header := false } 65
      (by decide) (by decide) (by decide)⟩

/-- C17: for every byte sequence the scan of `GetFastaSize_fast.c` ends with a
count that is at most the input length minus the number of bytes equal to
`'>'` or `'\n'`; and when the input is shorter than `2 ^ 64` bytes the 64-bit
counter has not wrapped: the count returned is the count of the same scan
with an unbounded counter. -/
theorem C17_count_bounded_by_length (x : List Nat) (fuel : Nat) (hfuel : x.length < fuel) :
    ∃ n, GetFastaSize_fast.scan fuel x = some n ∧
      n ≤ x.length - x.countP (fun c => decide (c = GT ∨ c = NL)) ∧
      (x.length < 2 ^ 64 → n = residues false x) := by
  refine ⟨residues false x % 2 ^ 64, fast_scan_eq_residues_mod fuel x hfuel, ?_, ?_⟩
  · have h1 := residues_add_marks_le false x
    have h2 : residues false x % 2 ^ 64 ≤ residues false x := Nat.mod_le _ _
    omega
  · intro hlen
    have h1 := residues_le_length false x
    exact Nat.mod_eq_of_lt (by omega)

theorem C17_count_bounded_by_length_witness :
    [62, 97, 10, 65, 67, 10].length < 7 ∧
    ∃ n, GetFastaSize_fast.scan 7 [62, 97, 10, 65, 67, 10] = some n ∧
      n ≤ [62, 97, 10, 65, 67, 10].length -
        [62, 97, 10, 65, 67, 10].countP (fun c => decide (c = GT ∨ c = NL)) ∧
      ([62, 97, 10, 65, 67, 10].length < 2 ^ 64 →
        n = residues false [62, 97, 10, 65, 67, 10]) :=
  ⟨by decide, C17_count_bounded_by_length [62, 97, 10, 65, 67, 10] 7 (by decide)⟩

/-- C18: final-state characterisation. After the loop of `GetFastaSize_fast.c`
has processed any byte sequence `x` starting from header flag `s0` (and any
count), the flag is true exactly when either `x` holds a `'>'` with no `'\n'`
after it, or `x` holds neither `'>'` nor `'\n'` and `s0` was true. -/
theorem C18_final_header_flag (n : Nat) (s0 : Bool) (x : List Nat) :
    (GetFastaSize_fast.forLoop { count := n, in_header := s0 } x).in_header = true ↔
      (∃ a b, x = a ++ GT :: b ∧ NL ∉ b) ∨ (GT ∉ x ∧ NL ∉ x ∧ s0 = true) := by
  rw [fast_forLoop_header]
  exact headerAfter_true_iff s0 x

/-- C15: `scripts/GetFastaSize.c` reads `head` without initialising it. For
every input and every initial value `v` of `head`, if `v` is `OUT` or the first
input byte is `'>'`, the scan of `GetFastaSize_fast.c` ends with the count that
the five-branch chain returns; on inputs that begin with `'>'` that count is
the same for every `v`. -/
theorem C15_uninitialised_head (v : Int) (x : List Nat) (fuel : Nat)
    (hfuel : x.length < fuel)
    (hv : v = Scripts_GetFastaSize.OUT ∨ x.head? = some GT) :
    GetFastaSize_fast.scan fuel x = some (Scripts_GetFastaSize.scan v x) := by
  unfold GetFastaSize_fast.scan
  rw [fast_scanWith_eq_forLoop _ (by decide) fuel x hfuel]
  rcases hv with hv | hv
  · rw [hv, scripts_scan_OUT]
  · cases x with
    | nil => simp at hv
    | cons c x =>
      simp only [List.head?_cons, Option.some.injEq] at hv
      subst hv
      rw [scripts_scan_GT]

theorem C15_uninitialised_head_witness :
    [62, 97, 10, 65, 67, 10].length < 7 ∧
    ((7 : Int) = Scripts_GetFastaSize.OUT ∨ [62, 97, 10, 65, 67, 10].head? = some GT) ∧
    GetFastaSize_fast.scan 7 [62, 97, 10, 65, 67, 10] =
      some (Scripts_GetFastaSize.scan 7 [62, 97, 10, 65, 67, 10]) :=
  ⟨by decide, by decide,
    C15_uninitialised_head 7 [62, 97, 10, 65, 67, 10] 7 (by decide) (by decide)⟩

/-- C16: on the input `">a\n\xffAC\n"`, whose bytes lie in `0 .. 255` and whose
only `'>'` is followed by a `'\n'`, the scan of `scripts/cstuff/GetFastaSize.c`
does not return the count 3 of `GetFastaSize_fast.c`. With a signed `char` the
byte 255 becomes `-1`, compares equal to `EOF` and ends the scan with count 0,
whatever the fuel; with an unsigned `char` no value compares equal to `EOF`
and the scan never returns. -/
theorem C16_byte_255_taken_for_EOF (fuel : Nat) :
    GetFastaSize_fast.scan 8 [62, 97, 10, 255, 65, 67, 10] = some 3 ∧
    Cstuff_GetFastaSize.scan true (fuel + 3) [62, 97, 10, 255, 65, 67, 10] = some 0 ∧
    Cstuff_GetFastaSize.scan false fuel [62, 97, 10, 255, 65, 67, 10] = none := by
  refine ⟨by decide, ?_, cstuff_whileLoop_unsigned fuel _ 0⟩
  have h62 : toChar true (62 : Int) = 62 := by decide
  have h97 : toChar true (97 : Int) = 97 := by decide
  have h10 : toChar true (10 : Int) = 10 := by decide
  have h255 : toChar true (255 : Int) = -1 := by decide
  simp [Cstuff_GetFastaSize.scan, Cstuff_GetFastaSize.whileLoop,
    Cstuff_GetFastaSize.skipLoop, getchar, h62, h97, h10, h255, GT, NL, EOF]
